import Mathlib

/-!
Shallow embedding of the school-management backend (src/main.py and
src/schemas.py): a MongoDB-like document store, the eleven content
schemas with Pydantic-style validation, the session-token auth guard,
and the CRUD / keyed-page handlers.

Modelling conventions:
* A BSON document is an association list of field name to value;
  lookup and `$set` follow Python-dict / Mongo semantics (first
  occurrence wins for lookup, `$set` replaces in place or appends).
* `datetime.now(timezone.utc)` is an abstract tick passed in as a `now`
  parameter; the several `now()` calls inside one handler are modelled
  as the same tick.
* ObjectId values are represented by their 24-character hex string;
  `bson.ObjectId(s)` on a `str` succeeds exactly when `s` is 24 hex
  characters.
* Randomness (tokens, fresh ObjectIds) is passed in as parameters.
* Pydantic `EmailStr` on optional schema fields is abstracted to
  "string containing an at-sign"; no claim depends on finer email
  validation.
* An uncaught Python exception (`KeyError`) surfaces as a 500-class
  response; an uncaught Pydantic `ValidationError` is modelled by the
  dedicated `Err.validation` constructor carrying the offending field
  names.
-/

namespace SchoolApi

inductive Value where
  | str (s : String)
  | int (n : Int)
  | bool (b : Bool)
  | strList (l : List String)
  | time (t : Nat)
  | null
deriving DecidableEq

abbrev Doc := List (String × Value)

/-- Dictionary lookup: value of the first occurrence of key `k`. -/
def getField (d : Doc) (k : String) : Option Value :=
  match d with
  | [] => none
  | (k2, v) :: rest => if k2 = k then some v else getField rest k

/-- Dictionary assignment `d[k] = v`: replace the first occurrence of
`k` in place, or append when absent. -/
def setField (d : Doc) (k : String) (v : Value) : Doc :=
  match d with
  | [] => [(k, v)]
  | (k2, v2) :: rest => if k2 = k then (k, v) :: rest else (k2, v2) :: setField rest k v

/-- Mongo `$set`: apply every field assignment of `p` to `d`, in order. -/
def applySet (d : Doc) (p : Doc) : Doc :=
  match p with
  | [] => d
  | (k, v) :: rest => applySet (setField d k v) rest

/-- A Mongo equality filter: every listed field must be present with
the listed value. -/
def matchesFilter (d : Doc) (f : Doc) : Bool :=
  f.all fun kv => getField d kv.1 == some kv.2

/-- The document store: a collection name yields its list of documents,
in insertion order. -/
abbrev Store := String → List Doc

def emptyStore : Store := fun _ => []

def setColl (st : Store) (c : String) (docs : List Doc) : Store :=
  fun c2 => if c2 = c then docs else st c2

/-- `find_one(filter)`: first document matching the filter. -/
def find_one (st : Store) (c : String) (f : Doc) : Option Doc :=
  (st c).find? fun d => matchesFilter d f

/-- `update_one(filter, {"$set": p})` without upsert: apply `p` to the
first matching document; also yields `matched_count` (0 or 1). -/
def updateFirst (docs : List Doc) (f : Doc) (p : Doc) : List Doc × Nat :=
  match docs with
  | [] => ([], 0)
  | d :: rest =>
    if matchesFilter d f then (applySet d p :: rest, 1)
    else
      let r := updateFirst rest f p
      (d :: r.1, r.2)

/-- `delete_one(filter)`: remove the first matching document; also
yields `deleted_count` (0 or 1). -/
def deleteFirst (docs : List Doc) (f : Doc) : List Doc × Nat :=
  match docs with
  | [] => ([], 0)
  | d :: rest =>
    if matchesFilter d f then (rest, 1)
    else
      let r := deleteFirst rest f
      (d :: r.1, r.2)

/-- The document Mongo inserts on an upserting `update_one` that
matched nothing: the filter equalities, then `$set`, then
`$setOnInsert`, on a fresh `_id`. -/
def upsertDoc (f setp onIns : Doc) (newId : String) : Doc :=
  applySet (applySet (applySet [("_id", Value.str newId)] f) setp) onIns

/-- `update_one(filter, {"$set": setp, "$setOnInsert": onIns}, upsert=True)`. -/
def update_one_upsert (docs : List Doc) (f setp onIns : Doc) (newId : String) : List Doc :=
  match updateFirst docs f setp with
  | (_, 0) => docs ++ [upsertDoc f setp onIns newId]
  | (docs2, _) => docs2

/-- Error taxonomy of the handlers: `HTTPException(status, detail)` and
an uncaught Pydantic validation error carrying the offending fields. -/
inductive Err where
  | http (status : Nat) (detail : String)
  | validation (fields : List String)
deriving DecidableEq

instance {ε α : Type} [DecidableEq ε] [DecidableEq α] : DecidableEq (Except ε α) := fun a b =>
  match a, b with
  | .error e1, .error e2 =>
    if h : e1 = e2 then isTrue (by rw [h]) else isFalse fun hh => h (Except.error.inj hh)
  | .error _, .ok _ => isFalse Except.noConfusion
  | .ok _, .error _ => isFalse Except.noConfusion
  | .ok a1, .ok a2 =>
    if h : a1 = a2 then isTrue (by rw [h]) else isFalse fun hh => h (Except.ok.inj hh)

-- ---------------------------------------------------------------------
-- Schemas (src/schemas.py)
-- ---------------------------------------------------------------------

/-- Field types occurring in the eleven content models. -/
inductive FieldType where
  | str
  | optStr
  | optStrList
  | optInt
  | optEmail
  | lit (allowed : List String)
deriving DecidableEq

def isEmailish (s : String) : Bool := s.toList.any fun c => c = '@'

def typeCheck : FieldType → Value → Bool
  | .str, .str _ => true
  | .optStr, .str _ => true
  | .optStr, .null => true
  | .optStrList, .strList _ => true
  | .optStrList, .null => true
  | .optInt, .int _ => true
  | .optInt, .null => true
  | .optEmail, .str s => isEmailish s
  | .optEmail, .null => true
  | .lit allowed, .str s => allowed.contains s
  | _, _ => false

/-- One declared model field: name, required flag, type, and the
default used when an optional field is absent. -/
structure FieldSpec where
  name : String
  required : Bool
  ftype : FieldType
  dflt : Value
deriving DecidableEq

/-- A required field (no default). -/
def req (n : String) (t : FieldType) : FieldSpec := ⟨n, true, t, Value.null⟩

/-- An optional field whose default is `None`. -/
def opt (n : String) (t : FieldType) : FieldSpec := ⟨n, false, t, Value.null⟩

def newsArticleSchema : List FieldSpec :=
  [req "title" .str, req "content" .str, opt "author" .optStr,
   opt "tags" .optStrList, opt "cover_image" .optStr, opt "published_at" .optStr]

def announcementSchema : List FieldSpec :=
  [req "title" .str, req "content" .str, opt "start_date" .optStr,
   opt "end_date" .optStr, opt "audience" .optStrList]

def galleryItemSchema : List FieldSpec :=
  [opt "title" .optStr, req "image_url" .str, opt "category" .optStr,
   opt "caption" .optStr]

def admissionInfoSchema : List FieldSpec :=
  [req "year" .str, req "description" .str, opt "requirements" .optStrList,
   opt "important_dates" .optStrList, opt "registration_link" .optStr]

def academicCalendarEventSchema : List FieldSpec :=
  [req "title" .str, req "date" .str, opt "description" .optStr,
   opt "category" .optStr]

def scheduleEntrySchema : List FieldSpec :=
  [req "type" (.lit ["pelajaran", "ujian", "piket_guru"]), opt "day" .optStr,
   opt "time" .optStr, opt "subject" .optStr, opt "class_name" .optStr,
   opt "teacher" .optStr, opt "notes" .optStr]

def orgNodeSchema : List FieldSpec :=
  [req "title" .str, opt "name" .optStr, opt "parent_id" .optStr,
   ⟨"order", false, .optInt, Value.int 0⟩]

def staffSchema : List FieldSpec :=
  [req "name" .str, req "role" .str, opt "email" .optEmail,
   opt "phone" .optStr, opt "photo_url" .optStr, opt "department" .optStr]

def extracurricularSchema : List FieldSpec :=
  [req "name" .str, opt "coach" .optStr, opt "description" .optStr,
   opt "schedule" .optStr, opt "photo_url" .optStr]

def schoolPageSchema : List FieldSpec :=
  [req "key" (.lit ["sejarah", "visi_misi", "fasilitas", "kontak_alamat"]),
   opt "title" .optStr, opt "content" .optStr]

def achievementSchema : List FieldSpec :=
  [req "title" .str, opt "description" .optStr, opt "date" .optStr,
   opt "images" .optStrList]

/-- The `schema_map` dispatch table of `create_item`. -/
def schemaMap (c : String) : Option (List FieldSpec) :=
  if c = "newsarticle" then some newsArticleSchema
  else if c = "announcement" then some announcementSchema
  else if c = "galleryitem" then some galleryItemSchema
  else if c = "admissioninfo" then some admissionInfoSchema
  else if c = "academiccalendarevent" then some academicCalendarEventSchema
  else if c = "scheduleentry" then some scheduleEntrySchema
  else if c = "orgnode" then some orgNodeSchema
  else if c = "staff" then some staffSchema
  else if c = "extracurricular" then some extracurricularSchema
  else if c = "schoolpage" then some schoolPageSchema
  else if c = "achievement" then some achievementSchema
  else none

def knownCollections : List String :=
  ["newsarticle", "announcement", "galleryitem", "admissioninfo",
   "academiccalendarevent", "scheduleentry", "orgnode", "staff",
   "extracurricular", "schoolpage", "achievement"]

/-- Whether validating field `fs` against payload `raw` records an
error: present with the wrong type, or required and absent. -/
def fieldError (fs : FieldSpec) (raw : Doc) : Bool :=
  match getField raw fs.name with
  | some v => ! typeCheck fs.ftype v
  | none => fs.required

/-- The value `model_dump()` yields for field `fs`: the supplied value,
or the declared default when absent. -/
def fieldValue (fs : FieldSpec) (raw : Doc) : Value :=
  match getField raw fs.name with
  | some v => v
  | none => fs.dflt

/-- `Model(**raw).model_dump()`: collects every field error (Pydantic
reports all of them); on success the dump holds exactly the declared
fields. Extra undeclared fields are ignored (default Pydantic config:
`extra` is not `forbid`). -/
def validateDoc (schema : List FieldSpec) (raw : Doc) : Except (List String) Doc :=
  let errs := (schema.filter fun fs => fieldError fs raw).map FieldSpec.name
  if errs.isEmpty then .ok (schema.map fun fs => (fs.name, fieldValue fs raw))
  else .error errs

-- ---------------------------------------------------------------------
-- Handlers (src/main.py)
-- ---------------------------------------------------------------------

def MASTER_ADMIN_EMAIL : String := "caproktaroy03@gmail.com"

/-- Python `str.lower()`, character-wise (the emails involved are
ASCII). -/
def lowerStr (s : String) : String := String.mk (s.data.map Char.toLower)

/-- `ensure_admin`: `if not auth_token` treats both a missing header and
an empty-string header as missing; then the session lookup by
`{token, active: True}`; then `session["email"]` (a `KeyError` on a
session lacking the field would surface as a 500). -/
def ensure_admin (st : Store) (atok : Option String) : Except Err Value :=
  match atok with
  | none => .error (.http 401 "Missing auth token")
  | some tok =>
    if tok = "" then .error (.http 401 "Missing auth token")
    else
      match find_one st "session" [("token", .str tok), ("active", .bool true)] with
      | none => .error (.http 401 "Invalid or expired token")
      | some session =>
        match getField session "email" with
        | some e => .ok e
        | none => .error (.http 500 "KeyError: email")

structure AuthResp where
  token : String
  email : String
deriving DecidableEq

/-- The `$set` part of the User upsert performed by `login`. -/
def userPatch (email : String) (now : Nat) : Doc :=
  [("email", .str email), ("name", .str "Admin Master"),
   ("role", .str "admin"), ("updated_at", .time now)]

/-- The Session document inserted by `login` (with its fresh `_id`). -/
def sessionDoc (email token : String) (now : Nat) (sid : String) : Doc :=
  setField
    [("email", .str email), ("token", .str token), ("active", .bool true),
     ("created_at", .time now), ("updated_at", .time now)]
    "_id" (.str sid)

/-- `POST /auth/login`: lowercases the email, rejects non-master with
403 before any store write, upserts the User by email, then inserts a
fresh Session. `uid`/`sid` are the fresh ObjectIds, `token` the random
token. -/
def login (st : Store) (rawEmail token uid sid : String) (now : Nat) :
    Except Err AuthResp × Store :=
  let email := lowerStr rawEmail
  if email ≠ MASTER_ADMIN_EMAIL then
    (.error (.http 403 "Anda tidak memiliki akses admin"), st)
  else
    let st1 := setColl st "user"
      (update_one_upsert (st "user") [("email", .str email)]
        (userPatch email now) [("created_at", .time now)] uid)
    let st2 := setColl st1 "session" (st1 "session" ++ [sessionDoc email token now sid])
    (.ok ⟨token, email⟩, st2)

/-- The `$set` payload of `logout`. -/
def logoutPatch (now : Nat) : Doc :=
  [("active", .bool false), ("updated_at", .time now)]

/-- `POST /auth/logout`: `if not auth_token` returns `ok` (missing or
empty header); otherwise deactivates the first session matching the
token and returns `logged out`; never errors. -/
def logout (st : Store) (atok : Option String) (now : Nat) :
    Except Err String × Store :=
  match atok with
  | none => (.ok "ok", st)
  | some tok =>
    if tok = "" then (.ok "ok", st)
    else
      (.ok "logged out",
       setColl st "session"
         (updateFirst (st "session") [("token", .str tok)] (logoutPatch now)).1)

/-- `create_item`: schema dispatch, Pydantic validation, timestamp
stamping, insert; answers the new document's id. -/
def create_item (st : Store) (c : String) (data : Doc) (newId : String) (now : Nat) :
    Except Err String × Store :=
  match schemaMap c with
  | none => (.error (.http 400 "Unknown collection"), st)
  | some schema =>
    match validateDoc schema data with
    | .error errs => (.error (.validation errs), st)
    | .ok doc =>
      let stamped := setField (setField doc "created_at" (.time now)) "updated_at" (.time now)
      let inserted := setField stamped "_id" (.str newId)
      (.ok newId, setColl st c (st c ++ [inserted]))

/-- `obj_id`: `bson.ObjectId` accepts a string exactly when it is 24
hex characters; otherwise `HTTPException(400, "Invalid id")`. -/
def isValidObjectId (s : String) : Bool :=
  s.length = 24 && s.toList.all fun ch => ch.isDigit || ('a' ≤ ch && ch ≤ 'f') || ('A' ≤ ch && ch ≤ 'F')

def obj_id (s : String) : Except Err String :=
  if isValidObjectId s then .ok s else .error (.http 400 "Invalid id")

/-- Sort key for `.sort("created_at", -1)`; a missing or non-time field
sorts as tick 0. -/
def createdAtKey (d : Doc) : Nat :=
  match getField d "created_at" with
  | some (.time t) => t
  | _ => 0

def insertDesc (d : Doc) : List Doc → List Doc
  | [] => [d]
  | e :: rest =>
    if createdAtKey e ≤ createdAtKey d then d :: e :: rest
    else e :: insertDesc d rest

/-- Insertion sort, newest first. -/
def sortDesc : List Doc → List Doc
  | [] => []
  | d :: rest => insertDesc d (sortDesc rest)

/-- Mongo `.limit(n)`: `n = 0` means no limit. -/
def applyLimit (docs : List Doc) (limit : Nat) : List Doc :=
  if limit = 0 then docs else docs.take limit

def listDocs (st : Store) (c : String) (limit : Nat) : List Doc :=
  applyLimit (sortDesc (st c)) limit

/-- `GET /public/{collection}`: no auth and no collection-name check;
always answers the (possibly empty) sorted, limited document list. -/
def public_list (st : Store) (c : String) (limit : Nat) : Except Err (List Doc) :=
  .ok (listDocs st c limit)

/-- `GET /admin/{collection}`: same listing behind `ensure_admin`,
still no collection-name check. -/
def admin_list (st : Store) (atok : Option String) (c : String) (limit : Nat) :
    Except Err (List Doc) :=
  match ensure_admin st atok with
  | .error e => (.error e)
  | .ok _ => .ok (listDocs st c limit)

/-- `POST /admin/{collection}`. -/
def admin_create (st : Store) (atok : Option String) (c : String) (data : Doc)
    (newId : String) (now : Nat) : Except Err String × Store :=
  match ensure_admin st atok with
  | .error e => (.error e, st)
  | .ok _ => create_item st c data newId now

/-- `PUT /admin/{collection}/{item_id}`: auth, id decode, stamp
`updated_at` into the payload, `$set` on the matching document, 404
when nothing matched. No schema validation. -/
def admin_update (st : Store) (atok : Option String) (c idStr : String) (data : Doc)
    (now : Nat) : Except Err String × Store :=
  match ensure_admin st atok with
  | .error e => (.error e, st)
  | .ok _ =>
    match obj_id idStr with
    | .error e => (.error e, st)
    | .ok oid =>
      let patch := setField data "updated_at" (.time now)
      match updateFirst (st c) [("_id", .str oid)] patch with
      | (_, 0) => (.error (.http 404 "Not found"), st)
      | (docs2, _) => (.ok "updated", setColl st c docs2)

/-- `DELETE /admin/{collection}/{item_id}`. -/
def admin_delete (st : Store) (atok : Option String) (c idStr : String) :
    Except Err String × Store :=
  match ensure_admin st atok with
  | .error e => (.error e, st)
  | .ok _ =>
    match obj_id idStr with
    | .error e => (.error e, st)
    | .ok oid =>
      match deleteFirst (st c) [("_id", .str oid)] with
      | (_, 0) => (.error (.http 404 "Not found"), st)
      | (docs2, _) => (.ok "deleted", setColl st c docs2)

/-- The payload written by `set_page`: the raw body with the path key
injected over any client-supplied value, then `updated_at` stamped. -/
def pagePatch (data : Doc) (key : String) (now : Nat) : Doc :=
  setField (setField data "key" (.str key)) "updated_at" (.time now)

/-- The document `set_page` inserts when no document with the key
exists yet. -/
def newPageDoc (data : Doc) (key : String) (now : Nat) (newId : String) : Doc :=
  upsertDoc [("key", .str key)] (pagePatch data key now) [("created_at", .time now)] newId

/-- `POST /admin/page/{key}`: auth, inject the path key over any
client-supplied one, stamp `updated_at`, upsert on `{key}` with
`created_at` only on insert. No schema validation. -/
def set_page (st : Store) (atok : Option String) (key : String) (data : Doc)
    (newId : String) (now : Nat) : Except Err String × Store :=
  match ensure_admin st atok with
  | .error e => (.error e, st)
  | .ok _ =>
    (.ok "saved",
     setColl st "schoolpage"
       (update_one_upsert (st "schoolpage") [("key", .str key)] (pagePatch data key now)
         [("created_at", .time now)] newId))

-- ---------------------------------------------------------------------
-- Conformance of stored documents to a schema
-- ---------------------------------------------------------------------

/-- The system-managed fields a stored document carries beyond its
schema fields. -/
def systemField (k : String) : Bool :=
  k = "_id" || k = "created_at" || k = "updated_at"

/-- A stored document conforms to a schema when every declared field is
present with a value of the declared type, and every entry is either a
declared field or a system field. -/
def conforms (schema : List FieldSpec) (d : Doc) : Bool :=
  (schema.all fun fs =>
    match getField d fs.name with
    | some v => typeCheck fs.ftype v
    | none => false) &&
  (d.all fun kv => systemField kv.1 || schema.any fun fs => fs.name = kv.1)

/-- Well-formedness of a schema as declared in src/schemas.py: distinct
field names, none of them system fields, and every optional default
well-typed. -/
def schemaWf (schema : List FieldSpec) : Bool :=
  decide (schema.map FieldSpec.name).Nodup &&
  (schema.all fun fs => !systemField fs.name) &&
  (schema.all fun fs => fs.required || typeCheck fs.ftype fs.dflt)

def declaredKey (schema : List FieldSpec) (k : String) : Bool :=
  schema.any fun fs => fs.name = k

/-- Number of schoolpage documents stored under a given page key. -/
def countKey (st : Store) (key : String) : Nat :=
  ((st "schoolpage").filter fun d => matchesFilter d [("key", Value.str key)]).length

-- ---------------------------------------------------------------------
-- Concrete fixtures used to evaluate the theorems on small inputs
-- ---------------------------------------------------------------------

/-- A stored active session for the master admin. -/
def sessFix : Doc :=
  [("email", Value.str "caproktaroy03@gmail.com"), ("token", Value.str "tok1"),
   ("active", Value.bool true), ("created_at", Value.time 1), ("updated_at", Value.time 1),
   ("_id", Value.str "bbbbbbbbbbbbbbbbbbbbbbbb")]

/-- A stored, schema-conforming news article. -/
def newsFix : Doc :=
  [("title", Value.str "Hello"), ("content", Value.str "World"), ("author", Value.null),
   ("tags", Value.null), ("cover_image", Value.null), ("published_at", Value.null),
   ("created_at", Value.time 1), ("updated_at", Value.time 1),
   ("_id", Value.str "aaaaaaaaaaaaaaaaaaaaaaaa")]

/-- A store with one active session and one news article. -/
def stFix : Store := setColl (setColl emptyStore "session" [sessFix]) "newsarticle" [newsFix]

-- ---------------------------------------------------------------------
-- Helper lemmas: dictionaries, filters, `$set`
-- ---------------------------------------------------------------------

theorem getField_setField_self (d : Doc) (k : String) (v : Value) :
    getField (setField d k v) k = some v := by
  induction d with
  | nil => simp [setField, getField]
  | cons kv rest ih =>
    obtain ⟨k2, v2⟩ := kv
    by_cases h : k2 = k
    · simp [setField, h, getField]
    · simp [setField, h, getField, ih]

theorem getField_setField_ne (d : Doc) (k k2 : String) (v : Value) (h : k2 ≠ k) :
    getField (setField d k v) k2 = getField d k2 := by
  have h' : ¬ k = k2 := fun hh => h hh.symm
  induction d with
  | nil => simp [setField, getField, h']
  | cons kv rest ih =>
    obtain ⟨k3, v3⟩ := kv
    by_cases h3 : k3 = k
    · subst h3
      simp [setField, getField, h']
    · simp only [setField, h3, if_false]
      by_cases h4 : k3 = k2 <;> simp [getField, h4, ih]

theorem setField_getField_self (d : Doc) (k : String) (v : Value) :
    getField d k = some v → setField d k v = d := by
  induction d with
  | nil => intro h; simp [getField] at h
  | cons kv rest ih =>
    obtain ⟨k2, v2⟩ := kv
    intro h
    by_cases h2 : k2 = k
    · subst h2
      simp only [getField, if_pos rfl] at h
      have hv := Option.some.inj h
      subst hv
      simp [setField]
    · simp only [getField, h2, if_false] at h
      simp [setField, h2, ih h]

theorem mem_setField (d : Doc) (k : String) (v : Value) (x : String × Value) :
    x ∈ setField d k v → x ∈ d ∨ x = (k, v) := by
  induction d with
  | nil => intro h; simp [setField] at h; simp [h]
  | cons kv rest ih =>
    obtain ⟨k2, v2⟩ := kv
    intro h
    by_cases h2 : k2 = k
    · simp only [setField, h2, if_pos rfl] at h
      rcases List.mem_cons.mp h with h3 | h3
      · right; exact h3
      · left; exact List.mem_cons_of_mem _ h3
    · simp only [setField, h2, if_false] at h
      rcases List.mem_cons.mp h with h3 | h3
      · left; exact h3 ▸ List.mem_cons_self _ _
      · rcases ih h3 with h4 | h4
        · left; exact List.mem_cons_of_mem _ h4
        · right; exact h4

theorem keys_setField (d : Doc) (k : String) (v : Value) (k2 : String)
    (h : k2 ∈ (setField d k v).map Prod.fst) : k2 ∈ d.map Prod.fst ∨ k2 = k := by
  rcases List.mem_map.mp h with ⟨x, hx, hfst⟩
  rcases mem_setField d k v x hx with h3 | h3
  · left; exact List.mem_map.mpr ⟨x, h3, hfst⟩
  · right; rw [h3] at hfst; simpa using hfst.symm

theorem keysNodup_setField (d : Doc) (k : String) (v : Value) :
    (d.map Prod.fst).Nodup → ((setField d k v).map Prod.fst).Nodup := by
  induction d with
  | nil => intro _; simp [setField]
  | cons kv rest ih =>
    obtain ⟨k2, v2⟩ := kv
    intro h
    simp only [List.map_cons, List.nodup_cons] at h
    by_cases h2 : k2 = k
    · subst h2
      simp only [setField, if_true, List.map_cons, List.nodup_cons]
      exact ⟨h.1, h.2⟩
    · simp only [setField, h2, if_false, List.map_cons, List.nodup_cons]
      refine ⟨fun hmem => ?_, ih h.2⟩
      rcases keys_setField rest k v k2 hmem with h3 | h3
      · exact h.1 h3
      · exact h2 h3

theorem getField_eq_none_iff (d : Doc) (k : String) :
    getField d k = none ↔ k ∉ d.map Prod.fst := by
  induction d with
  | nil => simp [getField]
  | cons kv rest ih =>
    obtain ⟨k2, v2⟩ := kv
    by_cases h2 : k2 = k
    · subst h2
      simp [getField]
    · simp only [getField, h2, if_false, List.map_cons, List.mem_cons, not_or]
      rw [ih]
      constructor
      · intro hh
        exact ⟨fun heq => h2 heq.symm, hh⟩
      · intro hh
        exact hh.2

theorem getField_of_mem_nodup (d : Doc) (k : String) (v : Value) :
    (d.map Prod.fst).Nodup → (k, v) ∈ d → getField d k = some v := by
  induction d with
  | nil => intro _ h; simp at h
  | cons kv rest ih =>
    obtain ⟨k2, v2⟩ := kv
    intro hnd h
    simp only [List.map_cons, List.nodup_cons] at hnd
    rcases List.mem_cons.mp h with h3 | h3
    · injection h3 with hk hv
      subst hk
      subst hv
      simp [getField]
    · have hne : k2 ≠ k := by
        intro hk
        subst hk
        exact hnd.1 (List.mem_map.mpr ⟨(k2, v), h3, rfl⟩)
      simp [getField, hne, ih hnd.2 h3]

theorem getField_applySet_of_notMem (d p : Doc) (k : String) :
    k ∉ p.map Prod.fst → getField (applySet d p) k = getField d k := by
  induction p generalizing d with
  | nil => intro _; simp [applySet]
  | cons kv rest ih =>
    obtain ⟨k1, v1⟩ := kv
    intro h
    simp only [List.map_cons, List.mem_cons, not_or] at h
    simp only [applySet]
    rw [ih (setField d k1 v1) h.2, getField_setField_ne d k1 k v1 h.1]

theorem getField_applySet_of_getField (d p : Doc) (k : String) (v : Value) :
    (p.map Prod.fst).Nodup → getField p k = some v →
    getField (applySet d p) k = some v := by
  induction p generalizing d with
  | nil => intro _ h; simp [getField] at h
  | cons kv rest ih =>
    obtain ⟨k1, v1⟩ := kv
    intro hnd h
    simp only [List.map_cons, List.nodup_cons] at hnd
    by_cases h1 : k1 = k
    · subst h1
      simp only [getField, if_pos rfl] at h
      have hv := Option.some.inj h
      subst hv
      simp only [applySet]
      rw [getField_applySet_of_notMem (setField d k1 v1) rest k1 hnd.1]
      exact getField_setField_self d k1 v1
    · simp only [getField, h1, if_false] at h
      simp only [applySet]
      exact ih (setField d k1 v1) hnd.2 h

theorem matchesFilter_applySet (d p f : Doc) :
    (∀ kv ∈ f, kv.1 ∉ p.map Prod.fst) →
    matchesFilter (applySet d p) f = matchesFilter d f := by
  induction f with
  | nil => intro _; rfl
  | cons kv rest ih =>
    intro h
    simp only [matchesFilter, List.all_cons] at ih ⊢
    rw [getField_applySet_of_notMem d p kv.1 (h kv (List.mem_cons_self _ _)),
        ih (fun x hx => h x (List.mem_cons_of_mem _ hx))]

theorem setColl_same (st : Store) (c : String) (docs : List Doc) :
    setColl st c docs c = docs := by
  simp [setColl]

theorem setColl_ne (st : Store) (c c2 : String) (docs : List Doc) (h : c2 ≠ c) :
    setColl st c docs c2 = st c2 := by
  simp [setColl, h]

theorem setColl_self (st : Store) (c : String) :
    setColl st c (st c) = st := by
  funext c2
  by_cases h : c2 = c
  · subst h; simp [setColl]
  · simp [setColl, h]

theorem updateFirst_of_forall_not (docs : List Doc) (f p : Doc) :
    (∀ d ∈ docs, matchesFilter d f = false) → updateFirst docs f p = (docs, 0) := by
  induction docs with
  | nil => intro _; rfl
  | cons d rest ih =>
    intro h
    have hd := h d (List.mem_cons_self _ _)
    simp only [updateFirst, hd, Bool.false_eq_true, if_false]
    rw [ih (fun x hx => h x (List.mem_cons_of_mem _ hx))]

theorem deleteFirst_of_forall_not (docs : List Doc) (f : Doc) :
    (∀ d ∈ docs, matchesFilter d f = false) → deleteFirst docs f = (docs, 0) := by
  induction docs with
  | nil => intro _; rfl
  | cons d rest ih =>
    intro h
    have hd := h d (List.mem_cons_self _ _)
    simp only [deleteFirst, hd, Bool.false_eq_true, if_false]
    rw [ih (fun x hx => h x (List.mem_cons_of_mem _ hx))]

theorem updateFirst_split (docs : List Doc) (f p : Doc) (d : Doc) :
    docs.find? (fun x => matchesFilter x f) = some d →
    ∃ pre post, docs = pre ++ d :: post ∧
      (∀ x ∈ pre, matchesFilter x f = false) ∧
      updateFirst docs f p = (pre ++ applySet d p :: post, 1) := by
  induction docs with
  | nil => intro h; simp at h
  | cons e rest ih =>
    intro h
    cases hm : matchesFilter e f with
    | true =>
      simp only [List.find?, hm] at h
      have hd := Option.some.inj h
      subst hd
      refine ⟨[], rest, by simp, by simp, ?_⟩
      simp [updateFirst, hm]
    | false =>
      simp only [List.find?, hm] at h
      obtain ⟨pre, post, hsplit, hpre, hupd⟩ := ih h
      refine ⟨e :: pre, post, by simp [hsplit], ?_, ?_⟩
      · intro x hx
        rcases List.mem_cons.mp hx with hx | hx
        · subst hx; exact hm
        · exact hpre x hx
      · simp only [updateFirst, hm, Bool.false_eq_true, if_false]
        rw [hupd]
        simp

theorem mem_updateFirst (docs : List Doc) (f p : Doc) (x : Doc) :
    x ∈ (updateFirst docs f p).1 → x ∈ docs ∨ ∃ d, d ∈ docs ∧ x = applySet d p := by
  induction docs with
  | nil => intro h; simp [updateFirst] at h
  | cons e rest ih =>
    intro h
    cases hm : matchesFilter e f with
    | true =>
      simp only [updateFirst, hm, if_true] at h
      rcases List.mem_cons.mp h with h | h
      · right; exact ⟨e, List.mem_cons_self _ _, h⟩
      · left; exact List.mem_cons_of_mem _ h
    | false =>
      simp only [updateFirst, hm, Bool.false_eq_true, if_false] at h
      rcases List.mem_cons.mp h with h | h
      · left; exact h ▸ List.mem_cons_self _ _
      · rcases ih h with h2 | h2
        · left; exact List.mem_cons_of_mem _ h2
        · right
          obtain ⟨d, hd, hx⟩ := h2
          exact ⟨d, List.mem_cons_of_mem _ hd, hx⟩

theorem mem_update_one_upsert (docs : List Doc) (f setp onIns : Doc) (nid : String)
    (x : Doc) :
    x ∈ update_one_upsert docs f setp onIns nid →
    x ∈ docs ∨ (∃ d, d ∈ docs ∧ x = applySet d setp) ∨ x = upsertDoc f setp onIns nid := by
  intro h
  unfold update_one_upsert at h
  rcases hu : updateFirst docs f setp with ⟨docs2, n⟩
  rw [hu] at h
  cases n with
  | zero =>
    simp only [List.mem_append, List.mem_singleton] at h
    rcases h with h | h
    · left; exact h
    · right; right; exact h
  | succ n =>
    have h2 := mem_updateFirst docs f setp x (by rw [hu]; exact h)
    rcases h2 with h2 | h2
    · left; exact h2
    · right; left; exact h2

-- ---------------------------------------------------------------------
-- Helper lemmas: validation
-- ---------------------------------------------------------------------

theorem validateDoc_ok_elim (schema : List FieldSpec) (raw out : Doc) :
    validateDoc schema raw = .ok out →
    out = schema.map (fun fs => (fs.name, fieldValue fs raw)) ∧
    ∀ fs ∈ schema, fieldError fs raw = false := by
  intro h
  simp only [validateDoc] at h
  by_cases he : ((schema.filter fun fs => fieldError fs raw).map FieldSpec.name).isEmpty = true
  · rw [if_pos he] at h
    refine ⟨(Except.ok.inj h).symm, ?_⟩
    intro fs hfs
    have hnil : (schema.filter fun fs => fieldError fs raw) = [] := by
      cases hl : schema.filter fun fs => fieldError fs raw with
      | nil => rfl
      | cons a l => rw [hl] at he; simp [List.isEmpty] at he
    have := List.filter_eq_nil_iff.mp hnil fs hfs
    simpa using this
  · rw [if_neg he] at h
    exact Except.noConfusion h

theorem getField_map_fieldValue (schema : List FieldSpec) (raw : Doc) (fs : FieldSpec) :
    (schema.map FieldSpec.name).Nodup → fs ∈ schema →
    getField (schema.map fun g => (g.name, fieldValue g raw)) fs.name
      = some (fieldValue fs raw) := by
  induction schema with
  | nil => intro _ h; simp at h
  | cons g rest ih =>
    intro hnd hmem
    simp only [List.map_cons, List.nodup_cons] at hnd
    rcases List.mem_cons.mp hmem with h | h
    · subst h
      simp [getField]
    · have hne : g.name ≠ fs.name := by
        intro he
        apply hnd.1
        rw [he]
        exact List.mem_map.mpr ⟨fs, h, rfl⟩
      simp only [List.map_cons, getField, hne, if_false]
      exact ih hnd.2 h

theorem schemaWf_elim (schema : List FieldSpec) (h : schemaWf schema = true) :
    (schema.map FieldSpec.name).Nodup ∧
    (∀ fs ∈ schema, systemField fs.name = false) ∧
    (∀ fs ∈ schema, fs.required = false → typeCheck fs.ftype fs.dflt = true) := by
  unfold schemaWf at h
  simp only [Bool.and_eq_true, decide_eq_true_eq, List.all_eq_true] at h
  refine ⟨h.1.1, ?_, ?_⟩
  · intro fs hfs
    have h2 := h.1.2 fs hfs
    simpa using h2
  · intro fs hfs hreq
    have h2 := h.2 fs hfs
    rw [hreq] at h2
    simpa using h2

theorem conforms_create (schema : List FieldSpec) (raw : Doc) (now : Nat) (newId : String)
    (hwf : schemaWf schema = true) (out : Doc)
    (hok : validateDoc schema raw = .ok out) :
    conforms schema
      (setField (setField (setField out "created_at" (.time now)) "updated_at" (.time now))
        "_id" (.str newId)) = true := by
  obtain ⟨hnd, hsys, hdflt⟩ := schemaWf_elim schema hwf
  obtain ⟨hout, herr⟩ := validateDoc_ok_elim schema raw out hok
  subst hout
  simp only [conforms, Bool.and_eq_true, List.all_eq_true]
  constructor
  · intro fs hfs
    have hs := hsys fs hfs
    have h1 : fs.name ≠ "_id" := by
      intro he; rw [he] at hs; simp [systemField] at hs
    have h2 : fs.name ≠ "created_at" := by
      intro he; rw [he] at hs; simp [systemField] at hs
    have h3 : fs.name ≠ "updated_at" := by
      intro he; rw [he] at hs; simp [systemField] at hs
    rw [getField_setField_ne _ _ _ _ h1, getField_setField_ne _ _ _ _ h3,
        getField_setField_ne _ _ _ _ h2,
        getField_map_fieldValue schema raw fs hnd hfs]
    have he := herr fs hfs
    simp only [fieldValue]
    cases hg : getField raw fs.name with
    | some v =>
      simp only [fieldError, hg] at he
      simpa using he
    | none =>
      simp only [fieldError, hg] at he
      exact hdflt fs hfs he
  · intro kv hkv
    rcases mem_setField _ _ _ _ hkv with h | h
    · rcases mem_setField _ _ _ _ h with h2 | h2
      · rcases mem_setField _ _ _ _ h2 with h3 | h3
        · rcases List.mem_map.mp h3 with ⟨g, hg, hkveq⟩
          subst hkveq
          simp only [Bool.or_eq_true, List.any_eq_true]
          right
          exact ⟨g, hg, by simp⟩
        · rw [h3]; simp [systemField]
      · rw [h2]; simp [systemField]
    · rw [h]; simp [systemField]

set_option maxHeartbeats 1600000 in
theorem schemaMap_wf (c : String) (schema : List FieldSpec)
    (h : schemaMap c = some schema) : schemaWf schema = true := by
  unfold schemaMap at h
  split_ifs at h <;> injection h with h2 <;> subst h2 <;> decide

set_option maxHeartbeats 1600000 in
theorem schemaMap_of_not_known (c : String) (h : c ∉ knownCollections) :
    schemaMap c = none := by
  unfold schemaMap
  split_ifs with h1 h2 h3 h4 h5 h6 h7 h8 h9 h10 h11 <;>
    first
    | rfl
    | (exfalso; apply h; simp_all [knownCollections])

theorem setColl_setColl (st : Store) (c : String) (a b : List Doc) :
    setColl (setColl st c a) c b = setColl st c b := by
  funext c2
  by_cases h : c2 = c <;> simp [setColl, h]

theorem getField_filter (d : Doc) (q : String × Value → Bool) (k : String) :
    (∀ v, q (k, v) = true) → getField (d.filter q) k = getField d k := by
  intro hq
  induction d with
  | nil => rfl
  | cons kv rest ih =>
    obtain ⟨k2, v2⟩ := kv
    by_cases h2 : k2 = k
    · subst h2
      simp only [List.filter_cons, hq v2, if_true, getField, if_pos rfl]
    · cases hkeep : q (k2, v2) with
      | true => simp only [List.filter_cons, hkeep, if_true, getField, h2, if_false, ih]
      | false =>
        simp only [List.filter_cons, hkeep, Bool.false_eq_true, if_false, ih, getField, h2]

theorem updateFirst_idem (docs : List Doc) (f p : Doc)
    (hf : ∀ kv ∈ f, kv.1 ∉ p.map Prod.fst)
    (hp : ∀ d, applySet (applySet d p) p = applySet d p) :
    updateFirst (updateFirst docs f p).1 f p = updateFirst docs f p := by
  induction docs with
  | nil => rfl
  | cons e rest ih =>
    cases hm : matchesFilter e f with
    | true =>
      have hm2 : matchesFilter (applySet e p) f = true := by
        rw [matchesFilter_applySet e p f hf]; exact hm
      simp only [updateFirst, hm, if_true, hm2, hp e]
    | false =>
      simp only [updateFirst, hm, Bool.false_eq_true, if_false]
      rw [ih]

theorem applySet_logoutPatch_idem (d : Doc) (now : Nat) :
    applySet (applySet d (logoutPatch now)) (logoutPatch now)
      = applySet d (logoutPatch now) := by
  simp only [logoutPatch, applySet]
  have h1 : getField (setField (setField d "active" (Value.bool false)) "updated_at"
      (Value.time now)) "active" = some (Value.bool false) := by
    rw [getField_setField_ne _ _ _ _ (by decide), getField_setField_self]
  rw [setField_getField_self _ _ _ h1]
  exact setField_getField_self _ _ _ (getField_setField_self _ _ _)

-- ---------------------------------------------------------------------
-- Claim theorems
-- ---------------------------------------------------------------------

/-- C1 counterexample: the claim asserts that the list operation fails
with UnknownCollection on a collection name outside the eleven known
ones; in fact both list endpoints perform no collection-name check and
succeed, answering the (empty) document list for the unknown name
"bogus". -/
theorem unknown_collection_list_does_not_fail :
    public_list emptyStore "bogus" 50 = .ok [] ∧
    admin_list stFix (some "tok1") "bogus" 50 = .ok [] := by
  constructor <;> rfl

/-- C1 (amended): for a collection name outside the eleven known ones,
create fails with the 400 "Unknown collection" error and leaves the
store unchanged, while the public list endpoint — and, under a valid
session, the admin list endpoint — performs no collection check and
succeeds with the stored (empty or not) document list. -/
theorem unknown_collection_create_fails_list_succeeds
    (st : Store) (c : String) (data : Doc) (newId : String) (now limit : Nat)
    (atok : Option String) (ev : Value)
    (hc : c ∉ knownCollections) (hauth : ensure_admin st atok = .ok ev) :
    create_item st c data newId now = (.error (.http 400 "Unknown collection"), st) ∧
    public_list st c limit = .ok (listDocs st c limit) ∧
    admin_list st atok c limit = .ok (listDocs st c limit) := by
  have hm := schemaMap_of_not_known c hc
  refine ⟨?_, rfl, ?_⟩
  · simp [create_item, hm]
  · simp [admin_list, hauth]

/-- C1 witness: the amended claim evaluated on a concrete store and the
unknown collection name "bogus". -/
theorem unknown_collection_witness :
    create_item stFix "bogus" [] "cccccccccccccccccccccccc" 5
      = (.error (.http 400 "Unknown collection"), stFix) ∧
    public_list stFix "bogus" 50 = .ok (listDocs stFix "bogus" 50) ∧
    admin_list stFix (some "tok1") "bogus" 50 = .ok (listDocs stFix "bogus" 50) :=
  unknown_collection_create_fails_list_succeeds stFix "bogus" [] "cccccccccccccccccccccccc"
    5 50 (some "tok1") (Value.str "caproktaroy03@gmail.com") (by decide) (by decide)

/-- C8: login with any email whose lowercase form is not the master
administrator address fails with the 403 error and returns the store
untouched — no User upsert, no Session insert. -/
theorem login_rejects_non_master
    (st : Store) (rawEmail token uid sid : String) (now : Nat)
    (h : lowerStr rawEmail ≠ MASTER_ADMIN_EMAIL) :
    login st rawEmail token uid sid now
      = (.error (.http 403 "Anda tidak memiliki akses admin"), st) := by
  unfold login
  rw [if_pos h]

/-- C8 witness: login with "admin@example.com" fails 403 and leaves the
concrete store unchanged. -/
theorem login_rejects_non_master_witness :
    login stFix "admin@example.com" "t2" "cccccccccccccccccccccccc"
        "dddddddddddddddddddddddd" 6
      = (.error (.http 403 "Anda tidak memiliki akses admin"), stFix) :=
  login_rejects_non_master stFix "admin@example.com" "t2" "cccccccccccccccccccccccc"
    "dddddddddddddddddddddddd" 6 (by decide)

/-- C2 counterexample: the claim asserts every write path stores only
schema-conforming documents; in fact the update path performs no
validation: updating the stored news article's required string field
"title" to the integer 7 succeeds, and the stored collection then
contains a document that does not conform to the news article schema. -/
theorem update_stores_nonconforming_document :
    (admin_update stFix (some "tok1") "newsarticle" "aaaaaaaaaaaaaaaaaaaaaaaa"
        [("title", Value.int 7)] 9).1 = .ok "updated" ∧
    ((admin_update stFix (some "tok1") "newsarticle" "aaaaaaaaaaaaaaaaaaaaaaaa"
        [("title", Value.int 7)] 9).2 "newsarticle").all
      (fun d => conforms newsArticleSchema d) = false :=
  ⟨by decide, by decide⟩

/-- C2 (amended): only the create path validates. Every document that
create inserts conforms to the target collection's schema at the time
of write; the update and keyed page set paths apply the raw payload
without validation and can store non-conforming documents (see the
counterexample). -/
theorem create_item_inserts_only_conforming
    (st : Store) (c : String) (schema : List FieldSpec) (data : Doc)
    (newId r : String) (now : Nat)
    (hs : schemaMap c = some schema)
    (h : (create_item st c data newId now).1 = .ok r) :
    ∃ d, (create_item st c data newId now).2 = setColl st c (st c ++ [d]) ∧
      conforms schema d = true := by
  cases hv : validateDoc schema data with
  | error errs => simp [create_item, hs, hv] at h
  | ok doc =>
    refine ⟨setField (setField (setField doc "created_at" (.time now)) "updated_at"
      (.time now)) "_id" (.str newId), ?_, ?_⟩
    · simp [create_item, hs, hv]
    · exact conforms_create schema data now newId (schemaMap_wf c schema hs) doc hv

/-- C2 witness: creating a valid announcement on the concrete store
inserts a document conforming to the announcement schema. -/
theorem create_item_conforming_witness :
    ∃ d, (create_item stFix "announcement"
        [("title", Value.str "A"), ("content", Value.str "B")]
        "dddddddddddddddddddddddd" 7).2
      = setColl stFix "announcement" (stFix "announcement" ++ [d]) ∧
      conforms announcementSchema d = true :=
  create_item_inserts_only_conforming stFix "announcement" announcementSchema
    [("title", Value.str "A"), ("content", Value.str "B")]
    "dddddddddddddddddddddddd" "dddddddddddddddddddddddd" 7 (by decide) (by decide)

/-- C3 counterexample: the claim asserts create fails with
ValidationError when the payload carries an undeclared field and that
no document is inserted; in fact creating a news article with the
undeclared field "bogus" succeeds, a document is inserted, and no
stored document carries the extra field (it is silently dropped). -/
theorem extra_field_not_rejected :
    (create_item stFix "newsarticle"
        [("title", Value.str "T"), ("content", Value.str "C"), ("bogus", Value.str "x")]
        "eeeeeeeeeeeeeeeeeeeeeeee" 7).1 = .ok "eeeeeeeeeeeeeeeeeeeeeeee" ∧
    ((create_item stFix "newsarticle"
        [("title", Value.str "T"), ("content", Value.str "C"), ("bogus", Value.str "x")]
        "eeeeeeeeeeeeeeeeeeeeeeee" 7).2 "newsarticle").length = 2 ∧
    ((create_item stFix "newsarticle"
        [("title", Value.str "T"), ("content", Value.str "C"), ("bogus", Value.str "x")]
        "eeeeeeeeeeeeeeeeeeeeeeee" 7).2 "newsarticle").all
      (fun d => (getField d "bogus").isNone) = true := by
  refine ⟨by decide, by decide, by decide⟩

/-- Validation reads only declared fields, so filtering the payload
down to declared field names changes nothing. -/
theorem validateDoc_filter (schema : List FieldSpec) (data : Doc) :
    validateDoc schema (data.filter fun kv => declaredKey schema kv.1)
      = validateDoc schema data := by
  have hg : ∀ fs ∈ schema,
      getField (data.filter fun kv => declaredKey schema kv.1) fs.name
        = getField data fs.name := by
    intro fs hfs
    apply getField_filter
    intro v
    exact List.any_eq_true.mpr ⟨fs, hfs, by simp⟩
  have herr : ∀ fs ∈ schema,
      fieldError fs (data.filter fun kv => declaredKey schema kv.1)
        = fieldError fs data := by
    intro fs hfs
    unfold fieldError
    rw [hg fs hfs]
  have hval : ∀ fs ∈ schema,
      (fun fs => (fs.name, fieldValue fs (data.filter fun kv => declaredKey schema kv.1))) fs
        = (fun fs => (fs.name, fieldValue fs data)) fs := by
    intro fs hfs
    simp only [fieldValue]
    rw [hg fs hfs]
  have h1 : (schema.filter fun fs =>
        fieldError fs (data.filter fun kv => declaredKey schema kv.1))
      = schema.filter fun fs => fieldError fs data :=
    List.filter_congr herr
  have h2 : (schema.map fun fs =>
        (fs.name, fieldValue fs (data.filter fun kv => declaredKey schema kv.1)))
      = schema.map fun fs => (fs.name, fieldValue fs data) :=
    List.map_congr_left hval
  simp only [validateDoc]
  rw [h1, h2]

/-- C3 (amended): unknown extra fields in a create payload are silently
ignored, not rejected: create behaves exactly as on the payload with
undeclared fields filtered out, and when it succeeds the inserted
document carries no undeclared non-system field. -/
theorem create_ignores_undeclared_fields
    (st : Store) (c : String) (schema : List FieldSpec) (data : Doc)
    (newId r : String) (now : Nat)
    (hs : schemaMap c = some schema) :
    create_item st c data newId now
      = create_item st c (data.filter fun kv => declaredKey schema kv.1) newId now ∧
    ((create_item st c data newId now).1 = .ok r →
      ∃ d, (create_item st c data newId now).2 c = st c ++ [d] ∧
        ∀ k, declaredKey schema k = false → systemField k = false →
          getField d k = none) := by
  constructor
  · simp only [create_item, hs, validateDoc_filter schema data]
  · intro h
    cases hv : validateDoc schema data with
    | error errs => simp [create_item, hs, hv] at h
    | ok doc =>
      obtain ⟨hout, _⟩ := validateDoc_ok_elim schema data doc hv
      refine ⟨setField (setField (setField doc "created_at" (.time now)) "updated_at"
        (.time now)) "_id" (.str newId), ?_, ?_⟩
      · simp [create_item, hs, hv, setColl_same]
      · intro k hdecl hsysf
        have h1 : k ≠ "_id" := by
          intro he; rw [he] at hsysf; simp [systemField] at hsysf
        have h2 : k ≠ "created_at" := by
          intro he; rw [he] at hsysf; simp [systemField] at hsysf
        have h3 : k ≠ "updated_at" := by
          intro he; rw [he] at hsysf; simp [systemField] at hsysf
        rw [getField_setField_ne _ _ _ _ h1, getField_setField_ne _ _ _ _ h3,
            getField_setField_ne _ _ _ _ h2]
        subst hout
        rw [getField_eq_none_iff, List.map_map]
        intro hcontra
        rcases List.mem_map.mp hcontra with ⟨fs, hfs, hname⟩
        have hdk : declaredKey schema k = true := by
          apply List.any_eq_true.mpr
          refine ⟨fs, hfs, ?_⟩
          simp only [Function.comp] at hname
          simp [hname]
        rw [hdk] at hdecl
        exact Bool.noConfusion hdecl

/-- C3 witness: the amended claim evaluated on a payload carrying the
undeclared field "bogus": create succeeds, inserts one document, and
that document has no undeclared non-system field. -/
theorem create_ignores_undeclared_witness :
    ∃ d, (create_item stFix "newsarticle"
        [("title", Value.str "T"), ("content", Value.str "C"), ("bogus", Value.str "x")]
        "eeeeeeeeeeeeeeeeeeeeeeee" 7).2 "newsarticle" = stFix "newsarticle" ++ [d] ∧
      ∀ k, declaredKey newsArticleSchema k = false → systemField k = false →
        getField d k = none :=
  (create_ignores_undeclared_fields stFix "newsarticle" newsArticleSchema
    [("title", Value.str "T"), ("content", Value.str "C"), ("bogus", Value.str "x")]
    "eeeeeeeeeeeeeeeeeeeeeeee" "eeeeeeeeeeeeeeeeeeeeeeee" 7 (by decide)).2 (by decide)

/-- C4: the admin guard succeeds, yielding the stored session's email,
exactly when the request carries a nonempty token matching an active
session (the `if not auth_token` test treats an empty header like a
missing one); no further email or role check happens — any resolved
session authorizes the admin operations (shown for the admin list);
and a missing token and an unknown token fail with the same 401 error
kind, differing only in message. -/
theorem ensure_admin_iff (st : Store)
    (hwf : ∀ d ∈ st "session", (getField d "email").isSome = true) :
    ensure_admin st none = .error (.http 401 "Missing auth token") ∧
    ensure_admin st (some "") = .error (.http 401 "Missing auth token") ∧
    (∀ tok, tok ≠ "" →
      find_one st "session" [("token", .str tok), ("active", .bool true)] = none →
      ensure_admin st (some tok) = .error (.http 401 "Invalid or expired token")) ∧
    (∀ atok, (∃ res, ensure_admin st atok = .ok res) ↔
      (∃ tok d, atok = some tok ∧ tok ≠ "" ∧
        find_one st "session" [("token", .str tok), ("active", .bool true)] = some d)) ∧
    (∀ tok d res,
      find_one st "session" [("token", .str tok), ("active", .bool true)] = some d →
      ensure_admin st (some tok) = .ok res → getField d "email" = some res) ∧
    (∀ atok res c limit, ensure_admin st atok = .ok res →
      admin_list st atok c limit = .ok (listDocs st c limit)) := by
  refine ⟨rfl, rfl, ?_, ?_, ?_, ?_⟩
  · intro tok hne hfind
    simp [ensure_admin, hne, hfind]
  · intro atok
    constructor
    · rintro ⟨res, hres⟩
      cases atok with
      | none => simp [ensure_admin] at hres
      | some tok =>
        by_cases hne : tok = ""
        · subst hne
          simp [ensure_admin] at hres
        · cases hfind : find_one st "session"
              [("token", .str tok), ("active", .bool true)] with
          | none => simp [ensure_admin, hne, hfind] at hres
          | some d => exact ⟨tok, d, rfl, hne, hfind⟩
    · rintro ⟨tok, d, rfl, hne, hfind⟩
      have hmem : d ∈ st "session" := by
        have hfind2 : (st "session").find?
            (fun x => matchesFilter x [("token", .str tok), ("active", .bool true)])
              = some d := hfind
        exact List.mem_of_find?_eq_some hfind2
      rcases Option.isSome_iff_exists.mp (hwf d hmem) with ⟨e, he⟩
      exact ⟨e, by simp [ensure_admin, hne, hfind, he]⟩
  · intro tok d res hfind hres
    by_cases hne : tok = ""
    · subst hne
      simp [ensure_admin] at hres
    · simp only [ensure_admin, hne, if_false, hfind] at hres
      cases hg : getField d "email" with
      | none => rw [hg] at hres; exact Except.noConfusion hres
      | some e => rw [hg] at hres; exact congrArg some (Except.ok.inj hres)
  · intro atok res c limit h
    simp [admin_list, h]

/-- C4 witness: the guard evaluated on the concrete store — missing
token 401, unknown token 401 with the other message, stored token
succeeds. -/
theorem ensure_admin_iff_witness :
    ensure_admin stFix none = .error (.http 401 "Missing auth token") ∧
    ensure_admin stFix (some "nope") = .error (.http 401 "Invalid or expired token") ∧
    (∃ res, ensure_admin stFix (some "tok1") = .ok res) :=
  ⟨(ensure_admin_iff stFix (by decide)).1,
   (ensure_admin_iff stFix (by decide)).2.2.1 "nope" (by decide) (by decide),
   ((ensure_admin_iff stFix (by decide)).2.2.2.1 (some "tok1")).mpr
     ⟨"tok1", sessFix, rfl, by decide, by decide⟩⟩

/-- C6: decoding the malformed identifier "not-an-id" fails with the
400 "Invalid id" error; decoding any well-formed 24-hex identifier
succeeds regardless of whether a document exists; and an update or
delete under a valid session with a well-formed identifier matching no
stored document fails with 404 "Not found", leaving the store
unchanged. -/
theorem identifier_decode_distinguishes
    (st : Store) (c tok idStr : String) (data : Doc) (now : Nat) (ev : Value)
    (hauth : ensure_admin st (some tok) = .ok ev)
    (hid : isValidObjectId idStr = true)
    (hnone : ∀ x ∈ st c, matchesFilter x [("_id", Value.str idStr)] = false) :
    obj_id "not-an-id" = .error (.http 400 "Invalid id") ∧
    obj_id idStr = .ok idStr ∧
    admin_update st (some tok) c idStr data now = (.error (.http 404 "Not found"), st) ∧
    admin_delete st (some tok) c idStr = (.error (.http 404 "Not found"), st) := by
  have hobj : obj_id idStr = .ok idStr := by simp [obj_id, hid]
  refine ⟨by decide, hobj, ?_, ?_⟩
  · have hupd := updateFirst_of_forall_not (st c) [("_id", Value.str idStr)]
      (setField data "updated_at" (Value.time now)) hnone
    simp [admin_update, hauth, hobj, hupd]
  · have hdel := deleteFirst_of_forall_not (st c) [("_id", Value.str idStr)] hnone
    simp [admin_delete, hauth, hobj, hdel]

/-- C6 witness: the decode/404 distinction evaluated on the concrete
store with the well-formed but absent identifier of all f characters. -/
theorem identifier_decode_witness :
    obj_id "not-an-id" = .error (.http 400 "Invalid id") ∧
    obj_id "ffffffffffffffffffffffff" = .ok "ffffffffffffffffffffffff" ∧
    admin_update stFix (some "tok1") "newsarticle" "ffffffffffffffffffffffff"
        [("title", Value.str "X")] 3 = (.error (.http 404 "Not found"), stFix) ∧
    admin_delete stFix (some "tok1") "newsarticle" "ffffffffffffffffffffffff"
      = (.error (.http 404 "Not found"), stFix) :=
  identifier_decode_distinguishes stFix "newsarticle" "tok1" "ffffffffffffffffffffffff"
    [("title", Value.str "X")] 3 (Value.str "caproktaroy03@gmail.com")
    (by decide) (by decide) (by decide)

/-- C5: under a valid session, a well-formed identifier and a
duplicate-free payload (request bodies are dicts), updating an existing
document is a partial field-level merge: the first document matching
the identifier is replaced by the document obtained by overwriting
exactly the payload's fields plus `updated_at` (stamped to now); every
field absent from the payload keeps its stored value; every other
document and collection is untouched. -/
theorem admin_update_partial_merge
    (st : Store) (tok c idStr : String) (data : Doc) (now : Nat) (ev : Value) (d : Doc)
    (hauth : ensure_admin st (some tok) = .ok ev)
    (hid : isValidObjectId idStr = true)
    (hnd : (data.map Prod.fst).Nodup)
    (hfind : (st c).find? (fun x => matchesFilter x [("_id", Value.str idStr)]) = some d) :
    ∃ pre post d',
      st c = pre ++ d :: post ∧
      d' = applySet d (setField data "updated_at" (.time now)) ∧
      admin_update st (some tok) c idStr data now
        = (.ok "updated", setColl st c (pre ++ d' :: post)) ∧
      (∀ c2, c2 ≠ c → setColl st c (pre ++ d' :: post) c2 = st c2) ∧
      getField d' "updated_at" = some (.time now) ∧
      (∀ k v, (k, v) ∈ data → k ≠ "updated_at" → getField d' k = some v) ∧
      (∀ k, k ∉ data.map Prod.fst → k ≠ "updated_at" → getField d' k = getField d k) := by
  obtain ⟨pre, post, hsplit, hpre, hupd⟩ :=
    updateFirst_split (st c) [("_id", Value.str idStr)]
      (setField data "updated_at" (Value.time now)) d hfind
  have hobj : obj_id idStr = .ok idStr := by simp [obj_id, hid]
  have hpnd : ((setField data "updated_at" (Value.time now)).map Prod.fst).Nodup :=
    keysNodup_setField data "updated_at" (Value.time now) hnd
  refine ⟨pre, post, applySet d (setField data "updated_at" (Value.time now)),
    hsplit, rfl, ?_, ?_, ?_, ?_, ?_⟩
  · simp [admin_update, hauth, hobj, hupd]
  · intro c2 hc2
    exact setColl_ne st c c2 _ hc2
  · exact getField_applySet_of_getField d _ _ _ hpnd (getField_setField_self data _ _)
  · intro k v hkv hne
    have hpk : getField (setField data "updated_at" (Value.time now)) k = some v := by
      rw [getField_setField_ne _ _ _ _ hne]
      exact getField_of_mem_nodup data k v hnd hkv
    exact getField_applySet_of_getField d _ k v hpnd hpk
  · intro k hk hne
    have hnp : k ∉ (setField data "updated_at" (Value.time now)).map Prod.fst := by
      intro hmem
      rcases keys_setField data "updated_at" (Value.time now) k hmem with h | h
      · exact hk h
      · exact hne h
    exact getField_applySet_of_notMem d _ k hnp

/-- C5 witness: partially updating the stored news article's title on
the concrete store — only title and updated_at change. -/
theorem admin_update_partial_witness :
    ∃ pre post d',
      stFix "newsarticle" = pre ++ newsFix :: post ∧
      d' = applySet newsFix (setField [("title", Value.str "New")] "updated_at"
        (Value.time 9)) ∧
      admin_update stFix (some "tok1") "newsarticle" "aaaaaaaaaaaaaaaaaaaaaaaa"
          [("title", Value.str "New")] 9
        = (.ok "updated", setColl stFix "newsarticle" (pre ++ d' :: post)) ∧
      (∀ c2, c2 ≠ "newsarticle" →
        setColl stFix "newsarticle" (pre ++ d' :: post) c2 = stFix c2) ∧
      getField d' "updated_at" = some (.time 9) ∧
      (∀ k v, (k, v) ∈ [("title", Value.str "New")] → k ≠ "updated_at" →
        getField d' k = some v) ∧
      (∀ k, k ∉ [("title", Value.str "New")].map Prod.fst → k ≠ "updated_at" →
        getField d' k = getField newsFix k) :=
  admin_update_partial_merge stFix "tok1" "newsarticle" "aaaaaaaaaaaaaaaaaaaaaaaa"
    [("title", Value.str "New")] 9 (Value.str "caproktaroy03@gmail.com") newsFix
    (by decide) (by decide) (by decide) (by decide)

/-- C7: under a valid session, with a duplicate-free payload not
carrying its own `created_at`, the keyed page set upserts strictly on
the key: starting from a store holding at most one schoolpage document
for the key, a set call succeeds and leaves exactly one document for
that key; the path key overrides any client-supplied key value; on an
update of an existing document `updated_at` is stamped and `created_at`
kept; on first creation both are stamped; other collections are
untouched. -/
theorem set_page_upsert_singleton
    (st : Store) (tok key : String) (data : Doc) (newId : String) (now : Nat) (ev : Value)
    (hauth : ensure_admin st (some tok) = .ok ev)
    (hnd : (data.map Prod.fst).Nodup)
    (hcount : countKey st key ≤ 1)
    (hca : "created_at" ∉ data.map Prod.fst) :
    (set_page st (some tok) key data newId now).1 = .ok "saved" ∧
    countKey (set_page st (some tok) key data newId now).2 key = 1 ∧
    (∀ c2, c2 ≠ "schoolpage" →
      (set_page st (some tok) key data newId now).2 c2 = st c2) ∧
    (∀ d, (st "schoolpage").find?
        (fun x => matchesFilter x [("key", Value.str key)]) = some d →
      ∃ pre post, st "schoolpage" = pre ++ d :: post ∧
        (set_page st (some tok) key data newId now).2 "schoolpage"
          = pre ++ applySet d (pagePatch data key now) :: post ∧
        getField (applySet d (pagePatch data key now)) "key" = some (.str key) ∧
        getField (applySet d (pagePatch data key now)) "updated_at" = some (.time now) ∧
        getField (applySet d (pagePatch data key now)) "created_at"
          = getField d "created_at") ∧
    ((st "schoolpage").find?
        (fun x => matchesFilter x [("key", Value.str key)]) = none →
      (set_page st (some tok) key data newId now).2 "schoolpage"
        = st "schoolpage" ++ [newPageDoc data key now newId] ∧
      getField (newPageDoc data key now newId) "key" = some (.str key) ∧
      getField (newPageDoc data key now newId) "created_at" = some (.time now) ∧
      getField (newPageDoc data key now newId) "updated_at" = some (.time now)) := by
  have hpnd : ((pagePatch data key now).map Prod.fst).Nodup := by
    unfold pagePatch
    exact keysNodup_setField _ _ _ (keysNodup_setField _ _ _ hnd)
  have hpkey : getField (pagePatch data key now) "key" = some (.str key) := by
    unfold pagePatch
    rw [getField_setField_ne _ _ _ _ (by decide)]
    exact getField_setField_self _ _ _
  have hpua : getField (pagePatch data key now) "updated_at" = some (.time now) := by
    unfold pagePatch
    exact getField_setField_self _ _ _
  have hpca : "created_at" ∉ (pagePatch data key now).map Prod.fst := by
    intro hm
    unfold pagePatch at hm
    rcases keys_setField _ _ _ _ hm with h | h
    · rcases keys_setField _ _ _ _ h with h2 | h2
      · exact hca h2
      · exact (by decide : ("created_at" : String) ≠ "key") h2
    · exact (by decide : ("created_at" : String) ≠ "updated_at") h
  have hst2 : (set_page st (some tok) key data newId now).2
      = setColl st "schoolpage" (update_one_upsert (st "schoolpage")
          [("key", Value.str key)] (pagePatch data key now)
          [("created_at", Value.time now)] newId) := by
    simp [set_page, hauth]
  have hok : (set_page st (some tok) key data newId now).1 = .ok "saved" := by
    simp [set_page, hauth]
  have hframe : ∀ c2, c2 ≠ "schoolpage" →
      (set_page st (some tok) key data newId now).2 c2 = st c2 := by
    intro c2 hc2
    rw [hst2]
    exact setColl_ne _ _ _ _ hc2
  cases hfind : (st "schoolpage").find?
      (fun x => matchesFilter x [("key", Value.str key)]) with
  | some d =>
    obtain ⟨pre, post, hsplit, hpre, hupd⟩ :=
      updateFirst_split (st "schoolpage") [("key", Value.str key)]
        (pagePatch data key now) d hfind
    have hup : update_one_upsert (st "schoolpage") [("key", Value.str key)]
        (pagePatch data key now) [("created_at", Value.time now)] newId
          = pre ++ applySet d (pagePatch data key now) :: post := by
      unfold update_one_upsert
      rw [hupd]
    have hdm : matchesFilter d [("key", Value.str key)] = true := by
      have h2 := List.find?_some hfind
      simpa using h2
    have hkey2 : getField (applySet d (pagePatch data key now)) "key"
        = some (.str key) :=
      getField_applySet_of_getField d _ _ _ hpnd hpkey
    have hdm2 : matchesFilter (applySet d (pagePatch data key now))
        [("key", Value.str key)] = true := by
      simp [matchesFilter, hkey2]
    have hprelen : ((pre.filter fun x => matchesFilter x [("key", Value.str key)]).length)
        + ((post.filter fun x => matchesFilter x [("key", Value.str key)]).length) = 0 := by
      have hc2 : countKey st key
          = ((pre.filter fun x => matchesFilter x [("key", Value.str key)]).length)
            + (1 + (post.filter fun x => matchesFilter x [("key", Value.str key)]).length) := by
        unfold countKey
        rw [hsplit, List.filter_append,
            List.filter_cons_of_pos (p := fun x => matchesFilter x [("key", Value.str key)]) hdm,
            List.length_append, List.length_cons]
        omega
      omega
    have hstore : (set_page st (some tok) key data newId now).2 "schoolpage"
        = pre ++ applySet d (pagePatch data key now) :: post := by
      rw [hst2, setColl_same, hup]
    refine ⟨hok, ?_, hframe, ?_, ?_⟩
    · unfold countKey
      rw [hstore, List.filter_append,
          List.filter_cons_of_pos (p := fun x => matchesFilter x [("key", Value.str key)]) hdm2,
          List.length_append, List.length_cons]
      omega
    · intro d0 hd0
      have hdd := Option.some.inj hd0
      subst hdd
      refine ⟨pre, post, hsplit, hstore, hkey2, ?_, ?_⟩
      · exact getField_applySet_of_getField d _ _ _ hpnd hpua
      · exact getField_applySet_of_notMem d _ _ hpca
    · intro hcontra
      exact Option.noConfusion hcontra
  | none =>
    have hall : ∀ x ∈ st "schoolpage",
        matchesFilter x [("key", Value.str key)] = false := by
      intro x hx
      have h2 := List.find?_eq_none.mp hfind x hx
      simpa using h2
    have hup : update_one_upsert (st "schoolpage") [("key", Value.str key)]
        (pagePatch data key now) [("created_at", Value.time now)] newId
          = st "schoolpage" ++ [newPageDoc data key now newId] := by
      unfold update_one_upsert
      rw [updateFirst_of_forall_not _ _ _ hall]
      rfl
    have hstore : (set_page st (some tok) key data newId now).2 "schoolpage"
        = st "schoolpage" ++ [newPageDoc data key now newId] := by
      rw [hst2, setColl_same, hup]
    have hndkey : getField (newPageDoc data key now newId) "key" = some (.str key) := by
      unfold newPageDoc upsertDoc
      simp only [applySet]
      rw [getField_setField_ne _ _ _ _ (by decide)]
      exact getField_applySet_of_getField _ _ _ _ hpnd hpkey
    have hndca : getField (newPageDoc data key now newId) "created_at"
        = some (.time now) := by
      unfold newPageDoc upsertDoc
      simp only [applySet]
      exact getField_setField_self _ _ _
    have hndua : getField (newPageDoc data key now newId) "updated_at"
        = some (.time now) := by
      unfold newPageDoc upsertDoc
      simp only [applySet]
      rw [getField_setField_ne _ _ _ _ (by decide)]
      exact getField_applySet_of_getField _ _ _ _ hpnd hpua
    have hndm : matchesFilter (newPageDoc data key now newId)
        [("key", Value.str key)] = true := by
      simp [matchesFilter, hndkey]
    refine ⟨hok, ?_, hframe, ?_, ?_⟩
    · unfold countKey
      rw [hstore, List.filter_append]
      have hnil : (st "schoolpage").filter
          (fun x => matchesFilter x [("key", Value.str key)]) = [] :=
        List.filter_eq_nil_iff.mpr (by
          intro x hx
          simp [hall x hx])
      rw [hnil,
          List.filter_cons_of_pos (p := fun x => matchesFilter x [("key", Value.str key)]) hndm]
      simp
    · intro d0 hd0
      exact Option.noConfusion hd0
    · intro _
      exact ⟨hstore, hndkey, hndca, hndua⟩

theorem logout_applySet_active (d : Doc) (now : Nat) :
    getField (applySet d (logoutPatch now)) "active" = some (.bool false) := by
  simp only [logoutPatch, applySet]
  rw [getField_setField_ne _ _ _ _ (by decide)]
  exact getField_setField_self _ _ _

theorem logout_applySet_updated (d : Doc) (now : Nat) :
    getField (applySet d (logoutPatch now)) "updated_at" = some (.time now) := by
  simp only [logoutPatch, applySet]
  exact getField_setField_self _ _ _

theorem logout_applySet_frame (d : Doc) (now : Nat) (k : String)
    (h1 : k ≠ "active") (h2 : k ≠ "updated_at") :
    getField (applySet d (logoutPatch now)) k = getField d k := by
  simp only [logoutPatch, applySet]
  rw [getField_setField_ne _ _ _ _ h2, getField_setField_ne _ _ _ _ h1]

/-- C9: logout is total and idempotent: with no token — or an empty
header, which `if not auth_token` treats the same — it answers ok and
leaves the store unchanged; with a token it always answers
"logged out", touches only the session collection, is a no-op when no
session matches the token, and otherwise flips exactly `active` to
false and stamps `updated_at` on the first matching session; and
running logout twice with the same token at the same tick leaves the
response and the store exactly as one run. -/
theorem logout_idempotent_total (st : Store) (now : Nat) :
    logout st none now = (.ok "ok", st) ∧
    logout st (some "") now = (.ok "ok", st) ∧
    (∀ tok, tok ≠ "" →
      (logout st (some tok) now).1 = .ok "logged out" ∧
      (∀ c2, c2 ≠ "session" → (logout st (some tok) now).2 c2 = st c2) ∧
      ((st "session").find?
          (fun x => matchesFilter x [("token", Value.str tok)]) = none →
        (logout st (some tok) now).2 = st) ∧
      (∀ d, (st "session").find?
          (fun x => matchesFilter x [("token", Value.str tok)]) = some d →
        ∃ pre post, st "session" = pre ++ d :: post ∧
          (logout st (some tok) now).2 "session"
            = pre ++ applySet d (logoutPatch now) :: post ∧
          getField (applySet d (logoutPatch now)) "active" = some (.bool false) ∧
          getField (applySet d (logoutPatch now)) "updated_at" = some (.time now) ∧
          (∀ k, k ≠ "active" → k ≠ "updated_at" →
            getField (applySet d (logoutPatch now)) k = getField d k))) ∧
    (∀ atok, logout (logout st atok now).2 atok now = logout st atok now) := by
  refine ⟨rfl, rfl, ?_, ?_⟩
  · intro tok hne
    have hx : logout st (some tok) now
        = (.ok "logged out", setColl st "session"
            (updateFirst (st "session") [("token", Value.str tok)] (logoutPatch now)).1) := by
      simp [logout, hne]
    refine ⟨by rw [hx], ?_, ?_, ?_⟩
    · intro c2 hc2
      rw [hx]
      exact setColl_ne _ _ _ _ hc2
    · intro hnone
      have hall : ∀ x ∈ st "session",
          matchesFilter x [("token", Value.str tok)] = false := by
        intro x hxm
        have h2 := List.find?_eq_none.mp hnone x hxm
        simpa using h2
      rw [hx]
      show setColl st "session"
          (updateFirst (st "session") [("token", Value.str tok)] (logoutPatch now)).1 = st
      rw [updateFirst_of_forall_not _ _ _ hall]
      exact setColl_self st "session"
    · intro d hd
      obtain ⟨pre, post, hsplit, hpre, hupd⟩ :=
        updateFirst_split (st "session") [("token", Value.str tok)] (logoutPatch now) d hd
      refine ⟨pre, post, hsplit, ?_, logout_applySet_active d now,
        logout_applySet_updated d now, logout_applySet_frame d now⟩
      rw [hx]
      show setColl st "session"
          (updateFirst (st "session") [("token", Value.str tok)] (logoutPatch now)).1 "session"
        = pre ++ applySet d (logoutPatch now) :: post
      rw [setColl_same, hupd]
  · intro atok
    cases atok with
    | none => rfl
    | some tok =>
      by_cases hne : tok = ""
      · subst hne
        rfl
      · have hidem := updateFirst_idem (st "session") [("token", Value.str tok)]
          (logoutPatch now)
          (by
            intro kv hkv
            have hkv2 := List.mem_singleton.mp hkv
            subst hkv2
            simp [logoutPatch])
          (fun d => applySet_logoutPatch_idem d now)
        have hx : logout st (some tok) now
            = (.ok "logged out", setColl st "session"
                (updateFirst (st "session") [("token", Value.str tok)] (logoutPatch now)).1) := by
          simp [logout, hne]
        rw [hx]
        have hy : logout (setColl st "session"
              (updateFirst (st "session") [("token", Value.str tok)] (logoutPatch now)).1)
            (some tok) now
            = (.ok "logged out",
               setColl (setColl st "session"
                 (updateFirst (st "session") [("token", Value.str tok)] (logoutPatch now)).1)
                 "session"
                 (updateFirst
                   ((setColl st "session"
                     (updateFirst (st "session") [("token", Value.str tok)]
                       (logoutPatch now)).1) "session")
                   [("token", Value.str tok)] (logoutPatch now)).1) := by
          simp [logout, hne]
        rw [hy, setColl_same, hidem, setColl_setColl]

/-- C9 witness: logout evaluated on the concrete store — missing token
answers ok unchanged, and a second logout with the stored token equals
the first. -/
theorem logout_idempotent_witness :
    logout stFix none 5 = (.ok "ok", stFix) ∧
    logout (logout stFix (some "tok1") 5).2 (some "tok1") 5
      = logout stFix (some "tok1") 5 :=
  ⟨(logout_idempotent_total stFix 5).1,
   (logout_idempotent_total stFix 5).2.2.2 (some "tok1")⟩

/-- C10: login lowercases the supplied email before the master
comparison and before any store write: it succeeds whenever the
lowercase form equals the master address (so for every capitalization
of it), answers the lowercase form, every User or Session document the
call adds or rewrites carries the lowercase email, and no other
collection is touched. -/
theorem login_lowercases_email
    (st : Store) (rawEmail token uid sid : String) (now : Nat)
    (hm : lowerStr rawEmail = MASTER_ADMIN_EMAIL) :
    (login st rawEmail token uid sid now).1 = .ok ⟨token, lowerStr rawEmail⟩ ∧
    (∀ d ∈ (login st rawEmail token uid sid now).2 "user",
      d ∈ st "user" ∨ getField d "email" = some (.str (lowerStr rawEmail))) ∧
    (∀ d ∈ (login st rawEmail token uid sid now).2 "session",
      d ∈ st "session" ∨ getField d "email" = some (.str (lowerStr rawEmail))) ∧
    (∀ c2, c2 ≠ "user" → c2 ≠ "session" →
      (login st rawEmail token uid sid now).2 c2 = st c2) := by
  have hcond : ¬(lowerStr rawEmail ≠ MASTER_ADMIN_EMAIL) := not_not_intro hm
  have hlog : login st rawEmail token uid sid now
      = (.ok ⟨token, lowerStr rawEmail⟩,
         setColl (setColl st "user" (update_one_upsert (st "user")
             [("email", .str (lowerStr rawEmail))] (userPatch (lowerStr rawEmail) now)
             [("created_at", .time now)] uid)) "session"
           ((setColl st "user" (update_one_upsert (st "user")
             [("email", .str (lowerStr rawEmail))] (userPatch (lowerStr rawEmail) now)
             [("created_at", .time now)] uid)) "session"
             ++ [sessionDoc (lowerStr rawEmail) token now sid])) := by
    simp only [login]
    rw [if_neg hcond]
  have hund : ((userPatch (lowerStr rawEmail) now).map Prod.fst).Nodup := by
    have h2 : (userPatch (lowerStr rawEmail) now).map Prod.fst
        = ["email", "name", "role", "updated_at"] := rfl
    rw [h2]
    decide
  have hue : getField (userPatch (lowerStr rawEmail) now) "email"
      = some (.str (lowerStr rawEmail)) := rfl
  have honm : "email" ∉ ([("created_at", Value.time now)] : Doc).map Prod.fst := by
    have h2 : ([("created_at", Value.time now)] : Doc).map Prod.fst = ["created_at"] := rfl
    rw [h2]
    decide
  have huser : (login st rawEmail token uid sid now).2 "user"
      = update_one_upsert (st "user") [("email", .str (lowerStr rawEmail))]
        (userPatch (lowerStr rawEmail) now) [("created_at", .time now)] uid := by
    rw [hlog]
    simp [setColl]
  have hsess : (login st rawEmail token uid sid now).2 "session"
      = st "session" ++ [sessionDoc (lowerStr rawEmail) token now sid] := by
    rw [hlog]
    simp [setColl]
  refine ⟨by rw [hlog], ?_, ?_, ?_⟩
  · intro d hd
    rw [huser] at hd
    rcases mem_update_one_upsert _ _ _ _ _ _ hd with h | h | h
    · left
      exact h
    · right
      obtain ⟨d0, _, hdeq⟩ := h
      rw [hdeq]
      exact getField_applySet_of_getField d0 _ _ _ hund hue
    · right
      rw [h]
      unfold upsertDoc
      rw [getField_applySet_of_notMem _ _ _ honm]
      exact getField_applySet_of_getField _ _ _ _ hund hue
  · intro d hd
    rw [hsess] at hd
    rcases List.mem_append.mp hd with h | h
    · left
      exact h
    · right
      rw [List.mem_singleton.mp h]
      unfold sessionDoc
      rw [getField_setField_ne _ _ _ _ (by decide)]
      rfl
  · intro c2 h1 h2
    rw [hlog]
    show setColl _ "session" _ c2 = st c2
    rw [setColl_ne _ _ _ _ h2, setColl_ne _ _ _ _ h1]

/-- C10 witness: login with the fully uppercased master address
succeeds, and every User and Session document it writes carries the
lowercase address. -/
theorem login_lowercases_witness :
    (login emptyStore "CAPROKTAROY03@GMAIL.COM" "t9" "cccccccccccccccccccccccc"
        "dddddddddddddddddddddddd" 8).1
      = .ok ⟨"t9", lowerStr "CAPROKTAROY03@GMAIL.COM"⟩ ∧
    (∀ d ∈ (login emptyStore "CAPROKTAROY03@GMAIL.COM" "t9" "cccccccccccccccccccccccc"
        "dddddddddddddddddddddddd" 8).2 "user",
      d ∈ emptyStore "user" ∨
        getField d "email" = some (.str (lowerStr "CAPROKTAROY03@GMAIL.COM"))) ∧
    (∀ d ∈ (login emptyStore "CAPROKTAROY03@GMAIL.COM" "t9" "cccccccccccccccccccccccc"
        "dddddddddddddddddddddddd" 8).2 "session",
      d ∈ emptyStore "session" ∨
        getField d "email" = some (.str (lowerStr "CAPROKTAROY03@GMAIL.COM"))) ∧
    (∀ c2, c2 ≠ "user" → c2 ≠ "session" →
      (login emptyStore "CAPROKTAROY03@GMAIL.COM" "t9" "cccccccccccccccccccccccc"
        "dddddddddddddddddddddddd" 8).2 c2 = emptyStore c2) :=
  login_lowercases_email emptyStore "CAPROKTAROY03@GMAIL.COM" "t9"
    "cccccccccccccccccccccccc" "dddddddddddddddddddddddd" 8 (by decide)

/-- C7 witness: first set on key "sejarah" against the concrete store
(which holds no schoolpage documents) creates exactly one document with
that key and both timestamps stamped. -/
theorem set_page_upsert_witness :
    (set_page stFix (some "tok1") "sejarah"
        [("title", Value.str "S"), ("content", Value.str "B")]
        "abcabcabcabcabcabcabcabc" 4).1 = .ok "saved" ∧
    countKey (set_page stFix (some "tok1") "sejarah"
        [("title", Value.str "S"), ("content", Value.str "B")]
        "abcabcabcabcabcabcabcabc" 4).2 "sejarah" = 1 :=
  ⟨(set_page_upsert_singleton stFix "tok1" "sejarah"
      [("title", Value.str "S"), ("content", Value.str "B")]
      "abcabcabcabcabcabcabcabc" 4 (Value.str "caproktaroy03@gmail.com")
      (by decide) (by decide) (by decide) (by decide)).1,
   (set_page_upsert_singleton stFix "tok1" "sejarah"
      [("title", Value.str "S"), ("content", Value.str "B")]
      "abcabcabcabcabcabcabcabc" 4 (Value.str "caproktaroy03@gmail.com")
      (by decide) (by decide) (by decide) (by decide)).2.1⟩

end SchoolApi
